import Mathlib

/-!
# Verification of the paper2slides text-structuring core

Shallow embedding of `src/data_processing/extract_paper.py` (functions
`clean_text`, `extract_paper_metadata`, `split_into_sections`,
`split_into_paragraphs`, and the document assembly of `process_single_pdf`),
over `List Char` as the string model.

Python regular expressions are embedded by specializing the backtracking
semantics of each concrete pattern to a direct recursive function; the
relevant semantics (leftmost match, greedy/lazy repetition with
backtracking, non-overlapping scanning of `re.sub`/`re.finditer`) are noted
at each definition.  Character classes (`\s`, `\d`, `[A-Z]` under
`re.IGNORECASE`, `str.lower`, `str.strip`, `str.splitlines`) are modelled
on the ASCII fragment plus the common Unicode whitespace set; all claims
and test inputs are ASCII apart from the literal marker "開始".

Scanning substitutions are written with an explicit fuel parameter (always
called with fuel = length of the remaining input; every step consumes at
least one character, so the fuel never runs out) to keep every definition
a structural recursion that the kernel can evaluate.
-/

set_option maxRecDepth 400000

namespace ExtractPaper

/-- Python whitespace (`\s` in `re` on `str`, and `str.strip()` /
`str.isspace()`): ASCII whitespace plus the Unicode whitespace code points. -/
def isPySpace (c : Char) : Bool :=
  c = ' ' || c = '\t' || c = '\n' || c = '\r' || c = '\x0b' || c = '\x0c' ||
  (0x1c ≤ c.toNat && c.toNat ≤ 0x1f) || c.toNat = 0x85 || c.toNat = 0xa0 ||
  c.toNat = 0x1680 || (0x2000 ≤ c.toNat && c.toNat ≤ 0x200a) ||
  c.toNat = 0x2028 || c.toNat = 0x2029 || c.toNat = 0x202f ||
  c.toNat = 0x205f || c.toNat = 0x3000

/-- ASCII digit, the `\d` class (inputs are ASCII). -/
def isAsciiDigit (c : Char) : Bool := '0' ≤ c && c ≤ '9'

/-- ASCII letter: `[A-Z]` under `re.IGNORECASE` (inputs are ASCII). -/
def isAsciiAlpha (c : Char) : Bool := ('A' ≤ c && c ≤ 'Z') || ('a' ≤ c && c ≤ 'z')

/-- The literal character range `[a-z]` (case-sensitive). -/
def isLowerAZ (c : Char) : Bool := 'a' ≤ c && c ≤ 'z'

/-- Line-boundary characters of Python `str.splitlines` (besides the
`"\r\n"` pair, which is handled separately). -/
def isLineBoundary (c : Char) : Bool :=
  c = '\n' || c = '\r' || c = '\x0b' || c = '\x0c' ||
  (0x1c ≤ c.toNat && c.toNat ≤ 0x1e) || c.toNat = 0x85 ||
  c.toNat = 0x2028 || c.toNat = 0x2029

/-- Case-sensitive list-of-chars "is a leading segment of" test, by
explicit character equality. -/
def pfxOf : List Char → List Char → Bool
  | [], _ => true
  | _ :: _, [] => false
  | p :: ps, c :: cs => (p = c) && pfxOf ps cs

/-- Case-insensitive variant of `pfxOf` (both sides lowered, as
`re.IGNORECASE` does for ASCII). -/
def ciPfxOf : List Char → List Char → Bool
  | [], _ => true
  | _ :: _, [] => false
  | p :: ps, c :: cs => (p.toLower = c.toLower) && ciPfxOf ps cs

/-- Does `pat` occur anywhere inside `s` (contiguously)?  Mirrors an
unanchored `re.search` for a literal pattern. -/
def hasSub (pat : List Char) : List Char → Bool
  | [] => pfxOf pat []
  | s@(_ :: rest) => pfxOf pat s || hasSub pat rest

/-- Python `str.strip()`: drop leading and trailing whitespace. -/
def pyStrip (s : List Char) : List Char :=
  (((s.dropWhile isPySpace).reverse).dropWhile isPySpace).reverse

/-- Python `str.splitlines()`: split at line boundaries (with `"\r\n"`
counted as a single boundary); a trailing boundary does not produce an
extra empty line, and the empty string has no lines. -/
def pySplitlines : List Char → List (List Char)
  | [] => []
  | c :: rest =>
    if c = '\r' then
      match rest with
      | [] => [[]]
      | '\n' :: r2 => [] :: pySplitlines r2
      | d :: r2 => [] :: pySplitlines (d :: r2)
    else if isLineBoundary c then [] :: pySplitlines rest
    else
      match pySplitlines rest with
      | [] => [[c]]
      | l :: ls => (c :: l) :: ls

/-- `"\n".join(lines)` on the list model. -/
def joinNL : List (List Char) → List Char
  | [] => []
  | [l] => l
  | l :: ls => l ++ '\n' :: joinNL ls

/-- Python `str.split(sep)` for a non-empty separator, with fuel
(leftmost, non-overlapping occurrences; `"".split(sep) = [""]`). -/
def splitSubFuel (sep : List Char) : Nat → List Char → List (List Char)
  | _, [] => [[]]
  | 0, s => [s]
  | f + 1, c :: rest =>
    if pfxOf sep (c :: rest) then
      [] :: splitSubFuel sep f ((c :: rest).drop sep.length)
    else
      match splitSubFuel sep f rest with
      | [] => [[c]]
      | l :: ls => (c :: l) :: ls

/-- Python `str.split(sep)` (non-empty separator). -/
def splitSub (sep s : List Char) : List (List Char) :=
  splitSubFuel sep s.length s

/-- The suffix of `w` strictly after its last `'\n'`, or `none` when `w`
contains no `'\n'`.  This captures the backtracking of a greedy `\s*`
followed by a literal `\n` applied to a maximal whitespace run `w`: the
match consumes up to and including the last newline of the run. -/
def afterLastNL (w : List Char) : Option (List Char) :=
  let r := w.reverse
  let t := r.takeWhile (fun c => !(c = '\n'))
  if t.length = r.length then none else some t.reverse

/-- Tail of a match of `\s*\d+\s*\n` (the part after the leading `\n` of
the pattern `\n\s*\d+\s*\n`): maximal whitespace run, a non-empty maximal
digit run, then whitespace up to and including its last newline.  Returns
the remainder of the input after the match. -/
def matchNumLine (s : List Char) : Option (List Char) :=
  let w1 := s.takeWhile isPySpace
  let r1 := s.drop w1.length
  let d := r1.takeWhile isAsciiDigit
  if d.isEmpty then none
  else
    let r2 := r1.drop d.length
    let w2 := r2.takeWhile isPySpace
    match afterLastNL w2 with
    | none => none
    | some suffix => some (suffix ++ r2.drop w2.length)

/-- `re.sub(r'\n\s*\d+\s*\n', '\n', text)` — remove isolated page-number
lines.  Scans left to right; on a match emits the replacement `"\n"` and
continues after the match end, as `re.sub` does. -/
def subNumLinesFuel : Nat → List Char → List Char
  | 0, s => s
  | _ + 1, [] => []
  | f + 1, c :: rest =>
    if c = '\n' then
      match matchNumLine rest with
      | some rest2 => '\n' :: subNumLinesFuel f rest2
      | none => c :: subNumLinesFuel f rest
    else c :: subNumLinesFuel f rest

def subNumLines (s : List Char) : List Char := subNumLinesFuel s.length s

/-- Tail of a match of `\s*Page \d+.*?\n` (after the leading `\n` of
`\n\s*Page \d+.*?\n`): maximal whitespace, the literal `"Page "`, a
non-empty digit run, then the lazy `.*?` runs to the first following
newline (`.` does not match `\n`).  Returns the remainder after the match. -/
def matchPageLine (s : List Char) : Option (List Char) :=
  let w1 := s.takeWhile isPySpace
  let r1 := s.drop w1.length
  if pfxOf ['P', 'a', 'g', 'e', ' '] r1 then
    let r2 := r1.drop 5
    let d := r2.takeWhile isAsciiDigit
    if d.isEmpty then none
    else
      let r3 := r2.drop d.length
      match r3.dropWhile (fun c => !(c = '\n')) with
      | '\n' :: r4 => some r4
      | _ => none
  else none

/-- `re.sub(r'\n\s*Page \d+.*?\n', '\n', text)` — remove page footers. -/
def subPageLinesFuel : Nat → List Char → List Char
  | 0, s => s
  | _ + 1, [] => []
  | f + 1, c :: rest =>
    if c = '\n' then
      match matchPageLine rest with
      | some rest2 => '\n' :: subPageLinesFuel f rest2
      | none => c :: subPageLinesFuel f rest
    else c :: subPageLinesFuel f rest

def subPageLines (s : List Char) : List Char := subPageLinesFuel s.length s

/-- `re.sub(r'([a-z])-\n([a-z])', r'\1\2', text)` — rejoin hyphenated
line-wrapped words.  The four-character match is replaced by the two
captured letters; scanning resumes after the match. -/
def subHyphenFuel : Nat → List Char → List Char
  | 0, s => s
  | _ + 1, [] => []
  | f + 1, c :: rest =>
    if isLowerAZ c then
      match rest with
      | '-' :: '\n' :: c2 :: rest2 =>
        if isLowerAZ c2 then c :: c2 :: subHyphenFuel f rest2
        else c :: subHyphenFuel f rest
      | _ => c :: subHyphenFuel f rest
    else c :: subHyphenFuel f rest

def subHyphen (s : List Char) : List Char := subHyphenFuel s.length s

/-- Tail of a match of `\s*\n` after the leading `\n` of `\n\s*\n`:
the greedy `\s*` backtracks to the last newline of the maximal
whitespace run. -/
def matchBlankTail (s : List Char) : Option (List Char) :=
  let w := s.takeWhile isPySpace
  match afterLastNL w with
  | none => none
  | some suffix => some (suffix ++ s.drop w.length)

/-- `re.sub(r'\n\s*\n', '\n\n', text)` — collapse whitespace-only line
runs to one blank line. -/
def subBlankRunsFuel : Nat → List Char → List Char
  | 0, s => s
  | _ + 1, [] => []
  | f + 1, c :: rest =>
    if c = '\n' then
      match matchBlankTail rest with
      | some rest2 => '\n' :: '\n' :: subBlankRunsFuel f rest2
      | none => c :: subBlankRunsFuel f rest
    else c :: subBlankRunsFuel f rest

def subBlankRuns (s : List Char) : List Char := subBlankRunsFuel s.length s

/-- `re.sub(r'[ \t]+', ' ', text)` — collapse space/tab runs to one space. -/
def subSpaceRunsFuel : Nat → List Char → List Char
  | 0, s => s
  | _ + 1, [] => []
  | f + 1, c :: rest =>
    if c = ' ' || c = '\t' then
      ' ' :: subSpaceRunsFuel f (rest.dropWhile (fun d => d = ' ' || d = '\t'))
    else c :: subSpaceRunsFuel f rest

def subSpaceRuns (s : List Char) : List Char := subSpaceRunsFuel s.length s

/-- `clean_text` of `extract_paper.py` (lines 35–53): the five
substitutions, then strip each line and drop lines that are empty after
stripping, joining with `"\n"`.  An empty input returns the empty string
via the initial falsiness test. -/
def clean_text (text : List Char) : List Char :=
  if text.isEmpty then []
  else
    let t5 := subSpaceRuns (subBlankRuns (subHyphen (subPageLines (subNumLines text))))
    joinNL (((pySplitlines t5).map pyStrip).filter (fun l => !l.isEmpty))

/-! ## Metadata extraction (`extract_paper_metadata`, lines 56–84) -/

/-- Does `re.search(r'^\d+\.|abstract|introduction|arxiv', low)` succeed on
the already-lowercased line `low`?  The anchored alternative matches one or
more digits then a period at the start; the other alternatives are plain
substring searches. -/
def titleExcluded (low : List Char) : Bool :=
  (let d := low.takeWhile isAsciiDigit
   !d.isEmpty && (low.drop d.length).head? = some '.') ||
  hasSub "abstract".toList low ||
  hasSub "introduction".toList low ||
  hasSub "arxiv".toList low

/-- The title-candidate test of lines 65–66: length strictly between 20 and
200, and the exclusion search fails on the lowercased line. -/
def isTitleCandidate (line : List Char) : Bool :=
  decide (20 < line.length) && decide (line.length < 200) &&
  !titleExcluded (line.map Char.toLower)

/-- Title selection, lines 61–70: the first 20 `'\n'`-separated lines are
filtered by `isTitleCandidate`; the title is the first candidate, if any. -/
def extract_title (text : List Char) : Option (List Char) :=
  ((((splitSub ['\n'] text).take 20).filter isTitleCandidate)).head?

/-- The lookahead `(?=\n\s*\n|\nintroduction|\n1\.|\nkeywords)` of the
abstract pattern, tested at a position (given as the remaining suffix).
`\n\s*\n` holds exactly when the suffix starts with `'\n'` and the maximal
whitespace run after it contains another `'\n'`. -/
def abstractStop (s : List Char) : Bool :=
  match s with
  | '\n' :: r =>
    (r.takeWhile isPySpace).contains '\n' ||
    ciPfxOf "introduction".toList r ||
    pfxOf "1.".toList r ||
    ciPfxOf "keywords".toList r
  | _ => false

/-- The same lookahead without the `\nkeywords` alternative, used by the
keywords pattern. -/
def keywordsStop (s : List Char) : Bool :=
  match s with
  | '\n' :: r =>
    (r.takeWhile isPySpace).contains '\n' ||
    ciPfxOf "introduction".toList r ||
    pfxOf "1.".toList r
  | _ => false

/-- Backtracking tail of `\s*[:\-]?\s*(.*?)(?=stop)` starting at `s`
(DOTALL, so `.` matches anything): the first `\s*` is tried from longest
to shortest, the optional `[:\-]` with the character first, the second
`\s*` from longest to shortest, and the lazy group from shortest to
longest; the first configuration whose lookahead holds wins, returning the
captured group. -/
def anchorTail (stop : List Char → Bool) (s : List Char) : Option (List Char) :=
  let lazyGroup : List Char → Option (List Char) := fun s3 =>
    (List.range (s3.length + 1)).findSome? fun k =>
      if stop (s3.drop k) then some (s3.take k) else none
  let afterColon : List Char → Option (List Char) := fun s2 =>
    let w2max := (s2.takeWhile isPySpace).length
    ((List.range (w2max + 1)).reverse).findSome? fun w2 =>
      lazyGroup (s2.drop w2)
  let w1max := (s.takeWhile isPySpace).length
  ((List.range (w1max + 1)).reverse).findSome? fun w1 =>
    let s1 := s.drop w1
    match s1.head? with
    | some ':' => (afterColon (s1.drop 1)).orElse fun _ => afterColon s1
    | some '-' => (afterColon (s1.drop 1)).orElse fun _ => afterColon s1
    | _ => afterColon s1

/-- `re.search(r'abstract\s*[:\-]?\s*(.*?)(?=…)', text, re.I | re.S)`,
line 73: scan positions left to right; at each position the pattern must
start with a case-insensitive `"abstract"`, then `anchorTail` runs; the
first position with a full match yields the captured group. -/
def searchAbstract : List Char → Option (List Char)
  | [] => none
  | s@(_ :: rest) =>
    match (if ciPfxOf "abstract".toList s then anchorTail abstractStop (s.drop 8) else none) with
    | some g => some g
    | none => searchAbstract rest

/-- `re.search(r'keywords?\s*[:\-]?\s*(.*?)(?=…)', text, re.I | re.S)`,
line 79: as `searchAbstract`, with the greedy optional `s` tried
consumed-first. -/
def searchKeywords : List Char → Option (List Char)
  | [] => none
  | s@(_ :: rest) =>
    match
      (if ciPfxOf "keyword".toList s then
        let s' := s.drop 7
        match s'.head? with
        | some c =>
          if c.toLower = 's' then
            (anchorTail keywordsStop (s'.drop 1)).orElse fun _ =>
              anchorTail keywordsStop s'
          else anchorTail keywordsStop s'
        | none => anchorTail keywordsStop s'
      else none) with
    | some g => some g
    | none => searchKeywords rest

/-- The metadata record: all three fields optional, as the Python dict
only receives a key when the corresponding search succeeds. -/
structure Metadata where
  title : Option (List Char)
  abstract : Option (List Char)
  keywords : Option (List Char)
  deriving DecidableEq, Repr

/-- `extract_paper_metadata`, lines 56–84: title from the first 20 lines,
abstract and keywords from the two regex searches, each captured group
stripped before storage. -/
def extract_paper_metadata (text : List Char) : Metadata :=
  { title := extract_title text
    abstract := (searchAbstract text).map pyStrip
    keywords := (searchKeywords text).map pyStrip }

/-! ## Section segmentation (`split_into_sections`, lines 87–133) -/

/-- A section record, the `{'title': …, 'content': …}` dict of line 119. -/
structure PSection where
  title : List Char
  content : List Char
  deriving DecidableEq, Repr

/-- Match tail of pattern (a), `\n\s*(\d+\.?\s+[A-Z][^.\n]*)\n` under
`re.IGNORECASE`, applied after the leading `'\n'`: maximal whitespace,
non-empty digits, optional period, mandatory whitespace, a letter, then
the maximal `[^.\n]*` run which must be terminated by `'\n'` (backtracking
cannot stop the run earlier, since its characters are not newlines).
Returns the raw captured group and the number of characters consumed
after the leading newline. -/
def matchNumbered (s : List Char) : Option (List Char × Nat) :=
  let w := s.takeWhile isPySpace
  let r1 := s.drop w.length
  let d := r1.takeWhile isAsciiDigit
  if d.isEmpty then none
  else
    let r2 := r1.drop d.length
    let (dot, r3) : List Char × List Char :=
      match r2 with
      | '.' :: t => (['.'], t)
      | _ => ([], r2)
    let w2 := r3.takeWhile isPySpace
    if w2.isEmpty then none
    else
      match r3.drop w2.length with
      | c :: r5 =>
        if isAsciiAlpha c then
          let body := r5.takeWhile (fun x => !(x = '.') && !(x = '\n'))
          match r5.drop body.length with
          | '\n' :: _ =>
            let grp := d ++ dot ++ w2 ++ c :: body
            some (grp, w.length + grp.length + 1)
          | _ => none
        else none
      | [] => none

/-- Match tail of pattern (b), `\n\s*([A-Z][A-Z\s]{2,})\n` under
`re.IGNORECASE`: maximal whitespace, a letter, then the greedy
`[A-Z\s]{2,}` backtracks inside the maximal letter/whitespace run to the
largest stop `k ≥ 2` whose next character is `'\n'` (the character after
the maximal run is never a newline, so the stop is at a newline inside
the run). -/
def matchCaps (s : List Char) : Option (List Char × Nat) :=
  let w := s.takeWhile isPySpace
  match s.drop w.length with
  | c :: r1 =>
    if isAsciiAlpha c then
      let run := r1.takeWhile (fun x => isAsciiAlpha x || isPySpace x)
      match (((List.range run.length).reverse).find? fun k =>
          decide (2 ≤ k) && decide (run.get? k = some '\n')) with
      | some k => some (c :: run.take k, w.length + 1 + k + 1)
      | none => none
    else none
  | [] => none

/-- The fixed heading vocabulary of pattern (c), in alternation order. -/
def sectionWords : List (List Char) :=
  ["Abstract".toList, "Introduction".toList, "Related Work".toList,
   "Methodology".toList, "Experiments".toList, "Results".toList,
   "Conclusion".toList, "References".toList]

/-- Match tail of pattern (c),
`\n\s*(Abstract|Introduction|…|References)\s*\n` under `re.IGNORECASE`:
maximal whitespace, one vocabulary word case-insensitively (alternatives
tried in order; on tail failure the next alternative is tried), then
`\s*\n` backtracking to the last newline of the following whitespace run.
The captured group is the word as it appears in the text. -/
def matchVocab (s : List Char) : Option (List Char × Nat) :=
  let w := s.takeWhile isPySpace
  let r1 := s.drop w.length
  sectionWords.findSome? fun word =>
    if ciPfxOf word r1 then
      let r2 := r1.drop word.length
      let w2 := r2.takeWhile isPySpace
      match (((List.range w2.length).reverse).find? fun k =>
          decide (w2.get? k = some '\n')) with
      | some k => some (r1.take word.length, w.length + word.length + k + 1)
      | none => none
    else none

/-- `re.finditer` for a pattern starting with a literal `'\n'`: scan
positions left to right, record `(match.start, group)` on success, and
resume scanning at the match end (non-overlapping matches). -/
def finditerFuel (m : List Char → Option (List Char × Nat)) :
    Nat → Nat → List Char → List (Nat × List Char)
  | 0, _, _ => []
  | _ + 1, _, [] => []
  | f + 1, pos, c :: rest =>
    if c = '\n' then
      match m rest with
      | some (grp, consumed) =>
        (pos, grp) :: finditerFuel m f (pos + 1 + consumed) (rest.drop consumed)
      | none => finditerFuel m f (pos + 1) rest
    else finditerFuel m f (pos + 1) rest

def finditer (m : List Char → Option (List Char × Nat)) (text : List Char) :
    List (Nat × List Char) :=
  finditerFuel m text.length 0 text

/-- Lines 101–106: for each pattern's matches in order, strip the group
and keep it as a boundary when the stripped title is shorter than 100. -/
def collectBreaks (ms : List (Nat × List Char)) : List (Nat × List Char) :=
  ms.foldr (fun pg acc =>
    let t := pyStrip pg.2
    if t.length < 100 then (pg.1, t) :: acc else acc) []

/-- Stable insertion into a list sorted by first component: the new
element goes after every element with a key `≤` its own, reproducing the
stability of Python's `list.sort(key=…)`. -/
def insByFst (x : Nat × List Char) : List (Nat × List Char) → List (Nat × List Char)
  | [] => [x]
  | y :: ys => if y.1 ≤ x.1 then y :: insByFst x ys else x :: y :: ys

/-- Stable sort by first component (line 109). -/
def sortByFst (l : List (Nat × List Char)) : List (Nat × List Char) :=
  l.foldl (fun acc x => insByFst x acc) []

/-- The sorted boundary list of lines 99–109: the synthetic `(0, "開始")`
boundary, then the filtered matches of the three patterns in pattern
order, stably sorted by offset. -/
def sectionBreaks (text : List Char) : List (Nat × List Char) :=
  sortByFst ((0, "開始".toList) ::
    (collectBreaks (finditer matchNumbered text) ++
     collectBreaks (finditer matchCaps text) ++
     collectBreaks (finditer matchVocab text)))

/-- `text[a:b]` for `a ≤ b`. -/
def slice (text : List Char) (a b : Nat) : List Char :=
  (text.drop a).take (b - a)

/-- The loop of lines 112–122: each consecutive boundary pair yields the
stripped slice, kept only when longer than 100 characters. -/
def pairSections (text : List Char) : List (Nat × List Char) → List PSection
  | b1 :: b2 :: rest =>
    let content := pyStrip (slice text b1.1 b2.1)
    (if 100 < content.length then [⟨b1.2, content⟩] else []) ++
      pairSections text (b2 :: rest)
  | _ => []

/-- Lines 125–131: the last boundary's content runs to end-of-text, under
the same length filter. -/
def lastSection (text : List Char) (bs : List (Nat × List Char)) : List PSection :=
  match bs.getLast? with
  | none => []
  | some b =>
    let c := pyStrip (text.drop b.1)
    if 100 < c.length then [⟨b.2, c⟩] else []

/-- `split_into_sections`, lines 87–133. -/
def split_into_sections (text : List Char) : List PSection :=
  pairSections text (sectionBreaks text) ++ lastSection text (sectionBreaks text)

/-- The candidate sections before the >100-character content filter: the
same boundary pairs and final boundary as `split_into_sections`, with
every stripped slice kept.  Used to state which candidates the filter
drops. -/
def pairCandidates (text : List Char) : List (Nat × List Char) → List PSection
  | b1 :: b2 :: rest =>
    ⟨b1.2, pyStrip (slice text b1.1 b2.1)⟩ :: pairCandidates text (b2 :: rest)
  | _ => []

def lastCandidate (text : List Char) (bs : List (Nat × List Char)) : List PSection :=
  match bs.getLast? with
  | none => []
  | some b => [⟨b.2, pyStrip (text.drop b.1)⟩]

def candidateSections (text : List Char) : List PSection :=
  pairCandidates text (sectionBreaks text) ++ lastCandidate text (sectionBreaks text)

/-! ## Paragraph segmentation (`split_into_paragraphs`, lines 136–160) -/

/-- `re.match(r'^\d+$', p)` on a stripped block: all characters are
digits and there is at least one. -/
def isDigitsOnly (p : List Char) : Bool := !p.isEmpty && p.all isAsciiDigit

/-- `re.match(r'^Page \d+', p)`: the block starts with `"Page "` followed
by at least one digit. -/
def isPageStart (p : List Char) : Bool :=
  pfxOf "Page ".toList p && ((p.drop 5).head?.map isAsciiDigit).getD false

/-- `re.match(r'^[\d\s\-\.\(\)]+$', p)` on a stripped block: every
character is a digit, whitespace, hyphen, period, or parenthesis, and
there is at least one. -/
def isDecor (p : List Char) : Bool :=
  !p.isEmpty && p.all fun c =>
    isAsciiDigit c || isPySpace c || c = '-' || c = '.' || c = '(' || c = ')'

/-- The filter loop of lines 142–158 over the double-newline blocks. -/
def paraGo (min_length : Nat) : List (List Char) → List (List Char)
  | [] => []
  | p :: ps =>
    let q := pyStrip p
    if q.length < min_length then paraGo min_length ps
    else if isDigitsOnly q then paraGo min_length ps
    else if isPageStart q then paraGo min_length ps
    else if isDecor q then paraGo min_length ps
    else q :: paraGo min_length ps

/-- `split_into_paragraphs`, lines 136–160 (`min_length` defaults to 50 at
the call site). -/
def split_into_paragraphs (text : List Char) (min_length : Nat) : List (List Char) :=
  paraGo min_length (splitSub ['\n', '\n'] text)

/-- The keep-predicate equivalent to the four `continue` tests, applied to
an already stripped block. -/
def paraKeep (min_length : Nat) (q : List Char) : Bool :=
  decide (min_length ≤ q.length) && !isDigitsOnly q && !isPageStart q && !isDecor q

/-! ## Document assembly (`process_single_pdf`, lines 212–231) -/

structure Statistics where
  total_text_length : Nat
  section_count : Nat
  paragraph_count : Nat
  deriving DecidableEq, Repr

/-- The structured record assembled at lines 212–231 from the cleaned
text: metadata, sections, paragraphs (with the default `min_length = 50`),
and the statistics fields. -/
structure ProcessedDocument where
  metadata : Metadata
  sections : List PSection
  paragraphs : List (List Char)
  statistics : Statistics
  deriving DecidableEq, Repr

def processDocument (raw_text : List Char) : ProcessedDocument :=
  let cleaned := clean_text raw_text
  { metadata := extract_paper_metadata cleaned
    sections := split_into_sections cleaned
    paragraphs := split_into_paragraphs cleaned 50
    statistics :=
      { total_text_length := cleaned.length
        section_count := (split_into_sections cleaned).length
        paragraph_count := (split_into_paragraphs cleaned 50).length } }

/-! ## Helper lemmas -/

/-- "No two consecutive newline characters", the key invariant of cleaned
text. -/
def noDoubleNL : List Char → Bool
  | [] => true
  | [_] => true
  | a :: b :: rest => !(a = '\n' && b = '\n') && noDoubleNL (b :: rest)

theorem dropWhile_dropWhile (p : Char → Bool) (l : List Char) :
    (l.dropWhile p).dropWhile p = l.dropWhile p := by
  induction l with
  | nil => rfl
  | cons c rest ih =>
    by_cases h : p c
    · simp [List.dropWhile_cons, h, ih]
    · simp [List.dropWhile_cons, h]

theorem head?_dropWhile_false {p : Char → Bool} {l : List Char} {c : Char}
    (h : (l.dropWhile p).head? = some c) : p c = false := by
  induction l with
  | nil => simp at h
  | cons a rest ih =>
    by_cases ha : p a
    · rw [List.dropWhile_cons_of_pos ha] at h; exact ih h
    · rw [List.dropWhile_cons_of_neg ha] at h
      simp at h
      subst h
      exact Bool.eq_false_iff.mpr ha

theorem dropWhile_eq_self_of_head {p : Char → Bool} {l : List Char}
    (h : ∀ c, l.head? = some c → p c = false) : l.dropWhile p = l := by
  cases l with
  | nil => rfl
  | cons a rest =>
    have := h a rfl
    simp [List.dropWhile_cons, this]

theorem exists_append_dropWhile (p : Char → Bool) (l : List Char) :
    ∃ t, l = t ++ l.dropWhile p := by
  induction l with
  | nil => exact ⟨[], rfl⟩
  | cons c rest ih =>
    by_cases h : p c
    · obtain ⟨t, ht⟩ := ih
      exact ⟨c :: t, by simp [List.dropWhile_cons, h, ← ht]⟩
    · exact ⟨[], by simp [List.dropWhile_cons, h]⟩

theorem mem_pyStrip {s : List Char} {c : Char} (h : c ∈ pyStrip s) : c ∈ s := by
  unfold pyStrip at h
  rw [List.mem_reverse] at h
  have h2 := (List.dropWhile_sublist (l := (s.dropWhile isPySpace).reverse) isPySpace).mem h
  rw [List.mem_reverse] at h2
  exact (List.dropWhile_sublist (l := s) isPySpace).mem h2

theorem pyStrip_pyStrip (s : List Char) : pyStrip (pyStrip s) = pyStrip s := by
  unfold pyStrip
  set a := s.dropWhile isPySpace with ha
  set b := a.reverse.dropWhile isPySpace with hb
  -- step 1: `b.reverse` has no leading whitespace, since its head is `a`'s head
  have hhead : ∀ c, b.reverse.head? = some c → isPySpace c = false := by
    intro c hc
    obtain ⟨t, ht⟩ := exists_append_dropWhile isPySpace a.reverse
    rw [← hb] at ht
    have hrev : a = b.reverse ++ t.reverse := by
      have := congrArg List.reverse ht
      simpa using this
    have hconv : a.head? = some c := by
      rw [hrev]
      cases hbv : b.reverse with
      | nil => rw [hbv] at hc; simp at hc
      | cons x xs =>
        rw [hbv] at hc
        simp at hc
        simp [hc]
    exact head?_dropWhile_false (l := s) (by rw [← ha]; exact hconv)
  rw [dropWhile_eq_self_of_head hhead, List.reverse_reverse, dropWhile_dropWhile]

theorem noDoubleNL_tail {c : Char} {rest : List Char}
    (h : noDoubleNL (c :: rest) = true) : noDoubleNL rest = true := by
  cases rest with
  | nil => rfl
  | cons b r =>
    rw [noDoubleNL] at h
    exact (Bool.and_eq_true_iff.mp h).2

theorem noDoubleNL_of_no_nl {l : List Char} (h : ∀ c ∈ l, c ≠ '\n') :
    noDoubleNL l = true := by
  induction l with
  | nil => rfl
  | cons a rest ih =>
    cases rest with
    | nil => rfl
    | cons b r =>
      rw [noDoubleNL, Bool.and_eq_true_iff]
      refine ⟨?_, ih fun c hc => h c (List.mem_cons_of_mem a hc)⟩
      have := h a (List.mem_cons_self a _)
      simp [this]

theorem noDoubleNL_append {l r : List Char} (hl : ∀ c ∈ l, c ≠ '\n')
    (hr : noDoubleNL r = true) : noDoubleNL (l ++ r) = true := by
  induction l with
  | nil => simpa using hr
  | cons a rest ih =>
    have ha : a ≠ '\n' := hl a (List.mem_cons_self a _)
    have hrest : noDoubleNL (rest ++ r) = true :=
      ih fun c hc => hl c (List.mem_cons_of_mem a hc)
    rw [List.cons_append]
    cases hc : rest ++ r with
    | nil => rfl
    | cons b t =>
      rw [hc] at hrest
      rw [noDoubleNL, Bool.and_eq_true_iff]
      exact ⟨by simp [ha], hrest⟩

theorem joinNL_head {l : List Char} {L : List (List Char)} (hne : l ≠ []) :
    (joinNL (l :: L)).head? = l.head? := by
  cases L with
  | nil => rfl
  | cons l2 L' =>
    show (l ++ '\n' :: joinNL (l2 :: L')).head? = l.head?
    cases l with
    | nil => exact absurd rfl hne
    | cons c cs => rfl

theorem joinNL_noDoubleNL {L : List (List Char)}
    (h : ∀ l ∈ L, l ≠ [] ∧ ∀ c ∈ l, c ≠ '\n') : noDoubleNL (joinNL L) = true := by
  induction L with
  | nil => rfl
  | cons l L' ih =>
    cases L' with
    | nil =>
      exact noDoubleNL_of_no_nl (h l (List.mem_cons_self l _)).2
    | cons l2 L'' =>
      show noDoubleNL (l ++ '\n' :: joinNL (l2 :: L'')) = true
      have hl := h l (List.mem_cons_self l _)
      have hrest : ∀ x ∈ l2 :: L'', x ≠ [] ∧ ∀ c ∈ x, c ≠ '\n' :=
        fun x hx => h x (List.mem_cons_of_mem l hx)
      refine noDoubleNL_append hl.2 ?_
      have hjoin : noDoubleNL (joinNL (l2 :: L'')) = true := ih hrest
      have hhd : (joinNL (l2 :: L'')).head? = l2.head? :=
        joinNL_head (hrest l2 (List.mem_cons_self l2 _)).1
      cases hj : joinNL (l2 :: L'') with
      | nil => rfl
      | cons b t =>
        show noDoubleNL ('\n' :: b :: t) = true
        rw [noDoubleNL, Bool.and_eq_true_iff]
        constructor
        · have hb : b ∈ l2 := by
            have : l2.head? = some b := by rw [← hhd, hj]; rfl
            exact List.mem_of_mem_head? this
          have := (hrest l2 (List.mem_cons_self l2 _)).2 b hb
          simp [this]
        · rw [← hj]; exact hjoin

theorem ne_cr_of_not_boundary {a : Char} (hb : isLineBoundary a = false) : a ≠ '\r' :=
  fun he => absurd hb (by subst he; decide)

theorem ne_nl_of_not_boundary {a : Char} (hb : isLineBoundary a = false) : a ≠ '\n' :=
  fun he => absurd hb (by subst he; decide)

theorem pySplitlines_cons_boundary {a : Char} (rest : List Char) (hr : a ≠ '\r')
    (hb : isLineBoundary a = true) : pySplitlines (a :: rest) = [] :: pySplitlines rest := by
  cases rest with
  | nil => rw [pySplitlines.eq_2, if_neg hr, if_pos hb]
  | cons d r2 =>
    by_cases hd : d = '\n'
    · subst hd; rw [pySplitlines.eq_3, if_neg hr, if_pos hb]
    · rw [pySplitlines.eq_4 a d r2 (fun h => hd h), if_neg hr, if_pos hb]

theorem pySplitlines_cons_content_nil {a : Char} {rest : List Char}
    (hb : isLineBoundary a = false) (hnil : pySplitlines rest = []) :
    pySplitlines (a :: rest) = [[a]] := by
  have hr := ne_cr_of_not_boundary hb
  have hb' : ¬ isLineBoundary a = true := by simp [hb]
  cases rest with
  | nil => rw [pySplitlines.eq_2, if_neg hr, if_neg hb']; rfl
  | cons d r2 =>
    by_cases hd : d = '\n'
    · subst hd; rw [pySplitlines.eq_3, if_neg hr, if_neg hb', hnil]
    · rw [pySplitlines.eq_4 a d r2 (fun h => hd h), if_neg hr, if_neg hb', hnil]

theorem pySplitlines_cons_content_cons {a : Char} {rest l0 : List Char}
    {ls : List (List Char)} (hb : isLineBoundary a = false)
    (h : pySplitlines rest = l0 :: ls) :
    pySplitlines (a :: rest) = (a :: l0) :: ls := by
  have hr := ne_cr_of_not_boundary hb
  have hb' : ¬ isLineBoundary a = true := by simp [hb]
  cases rest with
  | nil => rw [pySplitlines.eq_1] at h; exact absurd h (by simp)
  | cons d r2 =>
    by_cases hd : d = '\n'
    · subst hd; rw [pySplitlines.eq_3, if_neg hr, if_neg hb', h]
    · rw [pySplitlines.eq_4 a d r2 (fun h => hd h), if_neg hr, if_neg hb', h]

theorem pySplitlines_no_boundary :
    ∀ (s : List Char), ∀ l ∈ pySplitlines s, ∀ c ∈ l, isLineBoundary c = false := by
  intro s
  induction s using pySplitlines.induct with
  | case1 => intro l hl; simp [pySplitlines] at hl
  | case2 =>
    intro l hl c hc
    simp only [pySplitlines, if_pos rfl] at hl
    simp at hl
    subst hl; simp at hc
  | case3 r2 ih =>
    intro l hl c hc
    simp only [pySplitlines, if_pos rfl] at hl
    rcases List.mem_cons.mp hl with h | h
    · subst h; simp at hc
    · exact ih l h c hc
  | case4 d r2 hne ih =>
    intro l hl c hc
    simp only [pySplitlines, if_pos rfl] at hl
    rcases List.mem_cons.mp hl with h | h
    · subst h; simp at hc
    · exact ih l h c hc
  | case5 a rest hr hb ih =>
    intro l hl c hc
    rw [pySplitlines_cons_boundary rest hr hb] at hl
    rcases List.mem_cons.mp hl with h | h
    · subst h; simp at hc
    · exact ih l h c hc
  | case6 a rest hr hb hnil ih =>
    intro l hl c hc
    rw [pySplitlines_cons_content_nil (Bool.eq_false_iff.mpr hb) hnil] at hl
    simp at hl
    subst hl
    have : c = a := by simpa using hc
    subst this
    exact Bool.eq_false_iff.mpr hb
  | case7 a rest hr hb l0 ls hrest ih =>
    intro l hl c hc
    rw [pySplitlines_cons_content_cons (Bool.eq_false_iff.mpr hb) hrest] at hl
    rcases List.mem_cons.mp hl with h | h
    · subst h
      rcases List.mem_cons.mp hc with h2 | h2
      · subst h2; exact Bool.eq_false_iff.mpr hb
      · exact ih l0 (by rw [hrest]; exact List.mem_cons_self l0 ls) c h2
    · exact ih l (by rw [hrest]; exact List.mem_cons_of_mem l0 h) c hc

theorem pySplitlines_append_cons {l : List Char} (rest : List Char)
    (hl : ∀ c ∈ l, isLineBoundary c = false) :
    pySplitlines (l ++ '\n' :: rest) = l :: pySplitlines rest := by
  induction l with
  | nil =>
    exact pySplitlines_cons_boundary rest (by decide) (by decide)
  | cons a l' ih =>
    have hb := hl a (List.mem_cons_self a _)
    have ih' := ih fun c hc => hl c (List.mem_cons_of_mem a hc)
    rw [List.cons_append]
    exact pySplitlines_cons_content_cons hb ih'

theorem pySplitlines_single {l : List Char} (hne : l ≠ [])
    (hl : ∀ c ∈ l, isLineBoundary c = false) : pySplitlines l = [l] := by
  induction l with
  | nil => exact absurd rfl hne
  | cons a l' ih =>
    have hb := hl a (List.mem_cons_self a _)
    cases l' with
    | nil => exact pySplitlines_cons_content_nil hb rfl
    | cons b l'' =>
      have ih' := ih (by simp) fun c hc => hl c (List.mem_cons_of_mem a hc)
      exact pySplitlines_cons_content_cons hb ih'

theorem pySplitlines_joinNL {L : List (List Char)}
    (h : ∀ l ∈ L, l ≠ [] ∧ ∀ c ∈ l, isLineBoundary c = false) :
    pySplitlines (joinNL L) = L := by
  induction L with
  | nil => rfl
  | cons l L' ih =>
    cases L' with
    | nil =>
      have hl := h l (List.mem_cons_self l _)
      exact pySplitlines_single hl.1 hl.2
    | cons l2 L'' =>
      have hl := h l (List.mem_cons_self l _)
      have hrest : ∀ x ∈ l2 :: L'', x ≠ [] ∧ ∀ c ∈ x, isLineBoundary c = false :=
        fun x hx => h x (List.mem_cons_of_mem l hx)
      show pySplitlines (l ++ '\n' :: joinNL (l2 :: L'')) = l :: l2 :: L''
      rw [pySplitlines_append_cons _ hl.2, ih hrest]

theorem splitSubFuel_of_noDoubleNL :
    ∀ (f : Nat) (s : List Char), s.length ≤ f → noDoubleNL s = true →
      splitSubFuel ['\n', '\n'] f s = [s] := by
  intro f
  induction f with
  | zero =>
    intro s hf _
    cases s with
    | nil => rfl
    | cons c rest => simp at hf
  | succ f ih =>
    intro s hf hnd
    cases s with
    | nil => rfl
    | cons c rest =>
      have hpfx : pfxOf ['\n', '\n'] (c :: rest) = false := by
        by_cases hc : c = '\n'
        · subst hc
          cases rest with
          | nil => rfl
          | cons d r =>
            by_cases hd : d = '\n'
            · subst hd
              rw [noDoubleNL] at hnd
              simp at hnd
            · show (('\n' = '\n') && (('\n' = d) && true)) = false
              simp
              exact fun h => hd h.symm
        · show (('\n' = c) && _) = false
          simp
          intro h
          exact absurd h.symm hc
      have hrest : splitSubFuel ['\n', '\n'] f rest = [rest] :=
        ih rest (by simpa using Nat.lt_succ_iff.mp (Nat.lt_of_lt_of_le (Nat.lt_succ_self _) hf)) (noDoubleNL_tail hnd)
      show splitSubFuel ['\n', '\n'] (f + 1) (c :: rest) = [c :: rest]
      rw [splitSubFuel, if_neg (by simp [hpfx]), hrest]

theorem splitSub_of_noDoubleNL {s : List Char} (h : noDoubleNL s = true) :
    splitSub ['\n', '\n'] s = [s] :=
  splitSubFuel_of_noDoubleNL s.length s le_rfl h

theorem cleanChunks_spec (t5 : List Char) :
    ∀ l ∈ ((pySplitlines t5).map pyStrip).filter (fun l => !l.isEmpty),
      l ≠ [] ∧ ∀ c ∈ l, isLineBoundary c = false := by
  intro l hl
  rw [List.mem_filter] at hl
  obtain ⟨hmem, hne⟩ := hl
  rw [List.mem_map] at hmem
  obtain ⟨x, hx, hstrip⟩ := hmem
  constructor
  · intro he; rw [he] at hne; simp at hne
  · intro c hc
    rw [← hstrip] at hc
    exact pySplitlines_no_boundary t5 x hx c (mem_pyStrip hc)

theorem clean_text_eq_join {text : List Char} (h : text.isEmpty = false) :
    clean_text text =
      joinNL (((pySplitlines (subSpaceRuns (subBlankRuns (subHyphen
        (subPageLines (subNumLines text)))))).map pyStrip).filter
          (fun l => !l.isEmpty)) := by
  simp only [clean_text, h]
  rfl

theorem pairSections_eq_filter (text : List Char) :
    ∀ bs, pairSections text bs =
      (pairCandidates text bs).filter (fun s => decide (100 < s.content.length)) := by
  intro bs
  induction bs with
  | nil => rfl
  | cons b1 rest ih =>
    cases rest with
    | nil => rfl
    | cons b2 rest2 =>
      rw [pairSections, pairCandidates, ih, List.filter_cons]
      by_cases h : 100 < (pyStrip (slice text b1.1 b2.1)).length
      · rw [if_pos h, if_pos (by simpa using h)]
        rfl
      · rw [if_neg h, if_neg (by simpa using h)]
        rfl

theorem lastSection_eq_filter (text : List Char) (bs : List (Nat × List Char)) :
    lastSection text bs =
      (lastCandidate text bs).filter (fun s => decide (100 < s.content.length)) := by
  unfold lastSection lastCandidate
  cases bs.getLast? with
  | none => rfl
  | some b =>
    simp only [List.filter_cons, List.filter_nil]
    by_cases h : 100 < (pyStrip (text.drop b.1)).length
    · rw [if_pos h, if_pos (by simpa using h)]
    · rw [if_neg h, if_neg (by simpa using h)]

theorem split_into_sections_eq_filter (text : List Char) :
    split_into_sections text =
      (candidateSections text).filter (fun s => decide (100 < s.content.length)) := by
  unfold split_into_sections candidateSections
  rw [List.filter_append, pairSections_eq_filter, lastSection_eq_filter]

theorem paraGo_eq_filter (m : Nat) :
    ∀ l, paraGo m l = (l.map pyStrip).filter (paraKeep m) := by
  intro l
  induction l with
  | nil => rfl
  | cons p ps ih =>
    rw [paraGo, List.map_cons, List.filter_cons]
    by_cases h1 : (pyStrip p).length < m
    · rw [if_pos h1, ih, if_neg]
      simp only [paraKeep, Bool.and_eq_true, decide_eq_true_eq]
      intro hk
      exact absurd hk.1.1.1 (Nat.not_le_of_lt h1)
    · rw [if_neg h1]
      by_cases h2 : isDigitsOnly (pyStrip p) = true
      · rw [if_pos h2, ih, if_neg]
        simp [paraKeep, h2]
      · rw [if_neg h2]
        by_cases h3 : isPageStart (pyStrip p) = true
        · rw [if_pos h3, ih, if_neg]
          simp [paraKeep, h3]
        · rw [if_neg h3]
          by_cases h4 : isDecor (pyStrip p) = true
          · rw [if_pos h4, ih, if_neg]
            simp [paraKeep, h4]
          · rw [if_neg h4, ih, if_pos]
            simp [paraKeep, Nat.le_of_not_lt h1, h2, h3, h4]

theorem head?_filter_eq_find? (p : List Char → Bool) (l : List (List Char)) :
    (l.filter p).head? = l.find? p := by
  induction l with
  | nil => rfl
  | cons c rest ih =>
    by_cases h : p c
    · simp [List.filter_cons, List.find?, h]
    · simp [List.filter_cons, List.find?, h, ih]

theorem find?_eq_of_countP_one {p : List Char → Bool} {l : List (List Char)}
    {x : List Char} (hcount : l.countP p = 1) (hx : x ∈ l) (hp : p x = true) :
    l.find? p = some x := by
  induction l with
  | nil => simp at hx
  | cons c rest ih =>
    by_cases hc : p c
    · rw [List.find?, hc]
      rcases List.mem_cons.mp hx with h | h
      · rw [h]
      · exfalso
        rw [List.countP_cons, if_pos hc] at hcount
        have hzero : rest.countP p = 0 := by omega
        rw [List.countP_eq_zero] at hzero
        exact hzero x h hp
    · rw [List.find?, Bool.eq_false_iff.mpr hc]
      rcases List.mem_cons.mp hx with h | h
      · exact absurd (h ▸ hp) hc
      · rw [List.countP_cons, if_neg hc, Nat.add_zero] at hcount
        exact ih hcount h

/-! ## Claim theorems -/

/-- The Scenario 1 input of the specification. -/
def scenario1 : List Char := ("1. Introduction\nThis is the intro text repeated to exceed one hundred characters so it is not filtered out by the length check.\n\n2. Conclusion\nThis is the conclusion text repeated to exceed one hundred characters as well for the filter.\n" : String).toList

/-- C1 (counterexample): the claim says `clean_text` leaves exactly one
empty line between paragraphs.  On an input with two paragraphs separated
by one blank line, the input has one empty line but the output has zero:
the final line filter of `clean_text` removes every blank line. -/
theorem claim1_counterexample :
    (pySplitlines "Paragraph one text\n\nParagraph two text".toList).countP
        (fun l => l.isEmpty) = 1 ∧
    (pySplitlines (clean_text "Paragraph one text\n\nParagraph two text".toList)).countP
        (fun l => l.isEmpty) = 0 := by
  decide

/-- C1 (amended): `clean_text` removes every blank line entirely — no line
of its output is empty, so in particular no run of blank lines of any
length survives (the "no multi-blank-line run exceeds one blank line"
invariant holds vacuously, with zero blank lines rather than one between
paragraphs). -/
theorem claim1_blank_lines_removed :
    ∀ (text : List Char), ∀ l ∈ pySplitlines (clean_text text), l ≠ [] := by
  intro text l hl
  by_cases h : text.isEmpty
  · have htext : text = [] := by simpa using h
    subst htext
    simp [clean_text, pySplitlines] at hl
  · rw [clean_text_eq_join (Bool.eq_false_iff.mpr h),
      pySplitlines_joinNL (cleanChunks_spec _)] at hl
    exact (cleanChunks_spec _ l hl).1

/-- C1 witness: a concrete output line of `clean_text`, which is non-empty. -/
theorem claim1_witness :
    "Hello".toList ∈ pySplitlines (clean_text "Hello\n\nWorld".toList) ∧
    "Hello".toList ≠ ([] : List Char) :=
  ⟨by decide, claim1_blank_lines_removed "Hello\n\nWorld".toList "Hello".toList (by decide)⟩

/-- C2 (counterexample): on the Scenario 1 input, `split_into_sections`
does not produce the titles `"1. Introduction"` and `"2. Conclusion"`: the
first heading has no preceding newline, so pattern (a) cannot match it and
the first section keeps the synthetic start-marker title. -/
theorem claim2_counterexample :
    (split_into_sections scenario1).map PSection.title ≠
      ["1. Introduction".toList, "2. Conclusion".toList] := by
  decide

/-- C2 (amended): on the Scenario 1 input, `split_into_sections` produces
exactly two sections; the first is titled with the synthetic start marker
"開始" and contains the `"1. Introduction"` heading with its body, the
second is titled `"2. Conclusion"` and contains its body. -/
theorem claim2_scenario1_sections :
    split_into_sections scenario1 =
      [PSection.mk "開始".toList ("1. Introduction\nThis is the intro text repeated to exceed one hundred characters so it is not filtered out by the length check." : String).toList,
       PSection.mk "2. Conclusion".toList ("2. Conclusion\nThis is the conclusion text repeated to exceed one hundred characters as well for the filter." : String).toList] := by
  decide

/-- C3 (counterexample): `clean_text` is not idempotent.  On
`"a\n1\n2\nb"` the first pass removes only the line `"1"` (the `re.sub`
scan resumes after the consumed trailing newline, skipping the adjacent
digit line), and the second pass removes `"2"`. -/
theorem claim3_counterexample :
    clean_text (clean_text "a\n1\n2\nb".toList) ≠ clean_text "a\n1\n2\nb".toList := by
  decide

/-- C3 (amended): normalisation is a no-op only at fixed points of
`clean_text`: if `clean_text x = x` then re-normalising changes nothing;
in general `clean_text (clean_text x)` can differ from `clean_text x`. -/
theorem claim3_idempotent_on_fixed_points :
    ∀ x : List Char, clean_text x = x → clean_text (clean_text x) = clean_text x := by
  intro x h
  rw [h]
  exact h

/-- C3 witness: a concrete fixed point of `clean_text`. -/
theorem claim3_witness :
    clean_text "ab\ncd".toList = "ab\ncd".toList ∧
    clean_text (clean_text "ab\ncd".toList) = clean_text "ab\ncd".toList :=
  ⟨by decide, claim3_idempotent_on_fixed_points "ab\ncd".toList (by decide)⟩

/-- C4 (counterexample): a line of length exactly 20 that matches no
exclusion keyword is not selected as title — the code requires the length
to be strictly greater than 20, so "length 20 to 199" fails at the lower
boundary. -/
theorem claim4_counterexample :
    (splitSub ['\n'] "Quantum Widget Study".toList).take 20 =
      ["Quantum Widget Study".toList] ∧
    "Quantum Widget Study".toList.length = 20 ∧
    titleExcluded ("Quantum Widget Study".toList.map Char.toLower) = false ∧
    (extract_paper_metadata "Quantum Widget Study".toList).title = none := by
  decide

/-- C4 (amended): with the length bounds corrected to "strictly between 20
and 200" (21–199), title selection is as claimed: the title is the first
candidate among the first 20 lines in document order (`find?`), absent
when none qualifies, and when exactly one line qualifies it is the title. -/
theorem claim4_title_selection :
    ∀ text : List Char,
      (extract_paper_metadata text).title =
        ((splitSub ['\n'] text).take 20).find? isTitleCandidate ∧
      ∀ l, l ∈ (splitSub ['\n'] text).take 20 → isTitleCandidate l = true →
        ((splitSub ['\n'] text).take 20).countP isTitleCandidate = 1 →
        (extract_paper_metadata text).title = some l := by
  intro text
  have hfind : (extract_paper_metadata text).title =
      ((splitSub ['\n'] text).take 20).find? isTitleCandidate := by
    show (((splitSub ['\n'] text).take 20).filter isTitleCandidate).head? = _
    exact head?_filter_eq_find? isTitleCandidate _
  refine ⟨hfind, ?_⟩
  intro l hmem hcand hcount
  rw [hfind]
  exact find?_eq_of_countP_one hcount hmem hcand

/-- C4 witness: a text whose first 20 lines contain exactly one candidate;
that candidate is the extracted title. -/
theorem claim4_witness :
    isTitleCandidate "A Sufficiently Long Candidate Title".toList = true ∧
    (extract_paper_metadata "tiny\nA Sufficiently Long Candidate Title\nrest".toList).title =
      some "A Sufficiently Long Candidate Title".toList :=
  ⟨by decide,
   (claim4_title_selection "tiny\nA Sufficiently Long Candidate Title\nrest".toList).2
     "A Sufficiently Long Candidate Title".toList (by decide) (by decide) (by decide)⟩

/-- C5: the four extractors are total functions of the input string (they
are plain recursive definitions with no failure path in this embedding),
and on the empty input the assembled document has empty metadata, no
sections, no paragraphs, and `total_text_length = 0`. -/
theorem claim5_empty_document :
    clean_text [] = [] ∧
    extract_paper_metadata [] = Metadata.mk none none none ∧
    split_into_sections [] = [] ∧
    split_into_paragraphs [] 50 = [] ∧
    processDocument [] =
      ProcessedDocument.mk (Metadata.mk none none none) [] [] (Statistics.mk 0 0 0) := by
  decide

/-- C6 (counterexample): a candidate section whose stripped content has
length exactly 100 is dropped, not retained — the code keeps a section
only when its content is strictly longer than 100 characters. -/
theorem claim6_counterexample :
    candidateSections (List.replicate 100 'a') =
      [PSection.mk "開始".toList (List.replicate 100 'a')] ∧
    split_into_sections (List.replicate 100 'a') = [] := by
  decide

/-- C6 (amended): `split_into_sections` keeps exactly the candidate
sections whose trimmed content is strictly longer than 100 characters
(so a candidate of length exactly 100 is dropped), and every emitted
section content has length greater than 100. -/
theorem claim6_section_filter :
    ∀ text : List Char,
      split_into_sections text =
        (candidateSections text).filter (fun s => decide (100 < s.content.length)) ∧
      ∀ s ∈ split_into_sections text, 100 < s.content.length := by
  intro text
  refine ⟨split_into_sections_eq_filter text, ?_⟩
  intro s hs
  rw [split_into_sections_eq_filter text] at hs
  have := (List.mem_filter.mp hs).2
  exact of_decide_eq_true this

/-- C6 witness: a concrete emitted section; its content is longer than 100. -/
theorem claim6_witness :
    PSection.mk "開始".toList (List.replicate 150 'b') ∈
      split_into_sections (List.replicate 150 'b') ∧
    100 < (List.replicate 150 'b').length :=
  ⟨by decide,
   (claim6_section_filter (List.replicate 150 'b')).2
     (PSection.mk "開始".toList (List.replicate 150 'b')) (by decide)⟩

/-- C7: `split_into_paragraphs` is exactly the order-preserving filter of
the stripped double-newline blocks by the keep-predicate, and every
emitted paragraph has length at least `min_length` and is not a
digits-only block, a `"Page <digits>"` block, or a decoration block. -/
theorem claim7_paragraph_filter :
    ∀ (text : List Char) (m : Nat),
      split_into_paragraphs text m =
        ((splitSub ['\n', '\n'] text).map pyStrip).filter (paraKeep m) ∧
      ∀ p ∈ split_into_paragraphs text m,
        m ≤ p.length ∧ isDigitsOnly p = false ∧ isPageStart p = false ∧
          isDecor p = false := by
  intro text m
  have heq : split_into_paragraphs text m =
      ((splitSub ['\n', '\n'] text).map pyStrip).filter (paraKeep m) :=
    paraGo_eq_filter m _
  refine ⟨heq, ?_⟩
  intro p hp
  rw [heq] at hp
  have hk := (List.mem_filter.mp hp).2
  simp only [paraKeep, Bool.and_eq_true, decide_eq_true_eq, Bool.not_eq_true'] at hk
  exact ⟨hk.1.1.1, hk.1.1.2, hk.1.2, hk.2⟩

/-- C7 witness: the Scenario 3 text; its one real paragraph is emitted and
satisfies all filter properties. -/
theorem claim7_witness :
    "Some real paragraph text that is long enough to pass the fifty character minimum length filter.".toList ∈
      split_into_paragraphs "Page 5\n\nSome real paragraph text that is long enough to pass the fifty character minimum length filter.\n\n42\n".toList 50 ∧
    (50 ≤ "Some real paragraph text that is long enough to pass the fifty character minimum length filter.".toList.length ∧
     isDigitsOnly "Some real paragraph text that is long enough to pass the fifty character minimum length filter.".toList = false ∧
     isPageStart "Some real paragraph text that is long enough to pass the fifty character minimum length filter.".toList = false ∧
     isDecor "Some real paragraph text that is long enough to pass the fifty character minimum length filter.".toList = false) :=
  ⟨by decide,
   (claim7_paragraph_filter
     "Page 5\n\nSome real paragraph text that is long enough to pass the fifty character minimum length filter.\n\n42\n".toList 50).2
     "Some real paragraph text that is long enough to pass the fifty character minimum length filter.".toList (by decide)⟩

/-- C8: the four core components are deterministic pure functions of the
input string: in this embedding each is a function with no state, I/O, or
evaluation-order dependence, so two runs on equal inputs are equal. -/
theorem claim8_deterministic :
    ∀ (x : List Char) (m : Nat),
      clean_text x = clean_text x ∧
      extract_paper_metadata x = extract_paper_metadata x ∧
      split_into_sections x = split_into_sections x ∧
      split_into_paragraphs x m = split_into_paragraphs x m :=
  fun _ _ => ⟨rfl, rfl, rfl, rfl⟩

/-- C9: every line of `clean_text`'s output is non-empty after stripping,
the output never contains two consecutive newline characters, and
splitting it on the double-newline separator yields at most one block. -/
theorem claim9_normalized_no_blanks :
    ∀ text : List Char,
      (∀ l ∈ pySplitlines (clean_text text), pyStrip l ≠ []) ∧
      noDoubleNL (clean_text text) = true ∧
      (splitSub ['\n', '\n'] (clean_text text)).length ≤ 1 := by
  intro text
  by_cases h : text.isEmpty
  · have htext : text = [] := by simpa using h
    subst htext
    refine ⟨?_, by decide, by decide⟩
    intro l hl
    simp [clean_text, pySplitlines] at hl
  · have hne := Bool.eq_false_iff.mpr h
    have hnd : noDoubleNL (clean_text text) = true := by
      rw [clean_text_eq_join hne]
      apply joinNL_noDoubleNL
      intro l hl
      have hspec := cleanChunks_spec _ l hl
      exact ⟨hspec.1, fun c hc => ne_nl_of_not_boundary (hspec.2 c hc)⟩
    refine ⟨?_, hnd, ?_⟩
    · intro l hl
      rw [clean_text_eq_join hne, pySplitlines_joinNL (cleanChunks_spec _)] at hl
      have hne' := (cleanChunks_spec _ l hl).1
      have hmem := (List.mem_filter.mp hl).1
      obtain ⟨x, _, hx⟩ := List.mem_map.mp hmem
      rw [← hx, pyStrip_pyStrip, hx]
      exact hne'
    · rw [splitSub_of_noDoubleNL hnd]
      exact le_refl 1

/-- C9 witness: a concrete cleaned output line, non-empty after stripping. -/
theorem claim9_witness :
    "Yo".toList ∈ pySplitlines (clean_text "Hi\n\nYo".toList) ∧
    pyStrip "Yo".toList ≠ [] :=
  ⟨by decide, (claim9_normalized_no_blanks "Hi\n\nYo".toList).1 "Yo".toList (by decide)⟩

/-- C10: the exclusion keywords are matched as substrings of the whole
lowercased line, so a selected title never contains "abstract",
"introduction", or "arxiv" anywhere (case-insensitively); in particular a
line of the first 20 containing one of them is never selected. -/
theorem claim10_keyword_exclusion :
    ∀ (text t : List Char),
      (extract_paper_metadata text).title = some t →
        hasSub "abstract".toList (t.map Char.toLower) = false ∧
        hasSub "introduction".toList (t.map Char.toLower) = false ∧
        hasSub "arxiv".toList (t.map Char.toLower) = false := by
  intro text t h
  have hmem : t ∈ ((splitSub ['\n'] text).take 20).filter isTitleCandidate :=
    List.mem_of_mem_head? h
  have hcand : isTitleCandidate t = true := (List.mem_filter.mp hmem).2
  simp only [isTitleCandidate, Bool.and_eq_true, Bool.not_eq_true'] at hcand
  have hexcl : titleExcluded (t.map Char.toLower) = false := hcand.2
  simp only [titleExcluded, Bool.or_eq_false_iff] at hexcl
  exact ⟨hexcl.1.1.2, hexcl.1.2, hexcl.2⟩

/-- C10 witness: a selected title; it contains none of the keywords. -/
theorem claim10_witness :
    (extract_paper_metadata "x\nAn Example Candidate Title Of Decent Length\ny".toList).title =
      some "An Example Candidate Title Of Decent Length".toList ∧
    (hasSub "abstract".toList ("An Example Candidate Title Of Decent Length".toList.map Char.toLower) = false ∧
     hasSub "introduction".toList ("An Example Candidate Title Of Decent Length".toList.map Char.toLower) = false ∧
     hasSub "arxiv".toList ("An Example Candidate Title Of Decent Length".toList.map Char.toLower) = false) :=
  ⟨by decide,
   claim10_keyword_exclusion "x\nAn Example Candidate Title Of Decent Length\ny".toList
     "An Example Candidate Title Of Decent Length".toList (by decide)⟩

end ExtractPaper
